import Mathlib

/-!
Verification of the deadline-evaluation, report-formatting, registry,
scheduling and broadcast core of a small reminder bot (`app.py`).

The Python source is shallowly embedded: calendar dates become a `PDate`
structure compared lexicographically (exactly how Python `datetime.date`
compares), spreadsheet rows become the `Row` structure, optional dates
become `Option PDate`, and each pure function of the source is translated
to a Lean definition keeping its source name.
-/

/-- A calendar date as Python `datetime.date` carries it: year, month, day. -/
structure PDate where
  year : Nat
  month : Nat
  day : Nat
deriving DecidableEq, Repr

/-- Python `date` strict comparison `a < b`: lexicographic on (year, month, day). -/
def dlt (a b : PDate) : Prop :=
  a.year < b.year ∨ (a.year = b.year ∧
    (a.month < b.month ∨ (a.month = b.month ∧ a.day < b.day)))

/-- Python `date` comparison `a <= b`: lexicographic on (year, month, day). -/
def dle (a b : PDate) : Prop :=
  a.year < b.year ∨ (a.year = b.year ∧
    (a.month < b.month ∨ (a.month = b.month ∧ a.day ≤ b.day)))

instance (a b : PDate) : Decidable (dlt a b) := by
  unfold dlt; exact inferInstance

instance (a b : PDate) : Decidable (dle a b) := by
  unfold dle; exact inferInstance

theorem dle_refl (a : PDate) : dle a a := by
  unfold dle; omega

theorem dle_trans {a b c : PDate} (h1 : dle a b) (h2 : dle b c) : dle a c := by
  unfold dle at *; omega

theorem dle_total (a b : PDate) : dle a b ∨ dle b a := by
  unfold dle; omega

theorem dle_antisymm {a b : PDate} (h1 : dle a b) (h2 : dle b a) : a = b := by
  obtain ⟨ay, am, ad⟩ := a
  obtain ⟨by_, bm, bd⟩ := b
  simp only [dle, PDate.mk.injEq] at *
  omega

theorem not_dle_iff_dlt {a b : PDate} : ¬ dle a b ↔ dlt b a := by
  unfold dle dlt; omega

theorem dlt_irrefl (a : PDate) : ¬ dlt a a := by
  unfold dlt; omega

/--
A spreadsheet row as parsed by `read_rows`: post date, topic, block,
assignee tag, and the two deadline columns; date fields are optional.
-/
structure Row where
  post_date : Option PDate
  topic : String
  block : String
  who_tag : String
  d1 : Option PDate
  d2 : Option PDate
deriving DecidableEq, Repr

/--
`triggers_today` from `app.py`; the module-level `CATCH_UP_PAST_DEADLINES`
flag is passed explicitly.  In catch-up mode a row fires when any of
`d1`, `d2`, `post_date` is present and `<=` the reference date; otherwise
when any of them is present and equals the reference date.
-/
def triggers_today (catchUp : Bool) (r : Row) (ref : PDate) : Bool :=
  let deadlines : List (Option PDate) := [r.d1, r.d2, r.post_date]
  if catchUp then
    deadlines.any (fun od => match od with
      | none => false
      | some d => decide (dle d ref))
  else
    deadlines.any (fun od => match od with
      | none => false
      | some d => decide (d = ref))

/-- C1: in normal (non-catch-up) mode `triggers_today` holds exactly when the
reference date equals one of the present fields `d1`, `d2`, `post_date`;
absent fields never match. -/
theorem triggers_today_normal_iff (r : Row) (ref : PDate) :
    triggers_today false r ref = true ↔
      (r.d1 = some ref ∨ r.d2 = some ref ∨ r.post_date = some ref) := by
  obtain ⟨pd, tp, bl, wt, d1, d2⟩ := r
  cases pd <;> cases d1 <;> cases d2 <;> simp [triggers_today]

/-- C2: in catch-up mode `triggers_today` holds exactly when the reference
date is on or after one of the present fields `d1`, `d2`, `post_date`, and
the predicate is monotone in the reference date. -/
theorem triggers_today_catchup_iff_and_monotone (r : Row) (ref : PDate) :
    (triggers_today true r ref = true ↔
      ((∃ d, r.d1 = some d ∧ dle d ref) ∨
       (∃ d, r.d2 = some d ∧ dle d ref) ∨
       (∃ d, r.post_date = some d ∧ dle d ref))) ∧
    (∀ ref2 : PDate, dle ref ref2 →
      triggers_today true r ref = true → triggers_today true r ref2 = true) := by
  constructor
  · obtain ⟨pd, tp, bl, wt, d1, d2⟩ := r
    cases pd <;> cases d1 <;> cases d2 <;> simp [triggers_today]
  · intro ref2 hle htrig
    simp only [triggers_today, if_true, List.any_eq_true] at htrig ⊢
    obtain ⟨od, hmem, hod⟩ := htrig
    refine ⟨od, hmem, ?_⟩
    cases od with
    | none => simp at hod
    | some d =>
        exact decide_eq_true (dle_trans (of_decide_eq_true hod) hle)

theorem triggers_today_catchup_witness :
    dle ⟨2026, 1, 14⟩ ⟨2026, 2, 1⟩ ∧
    triggers_today true ⟨none, "", "", "@x", some ⟨2026, 1, 14⟩, none⟩ ⟨2026, 1, 14⟩ = true ∧
    triggers_today true ⟨none, "", "", "@x", some ⟨2026, 1, 14⟩, none⟩ ⟨2026, 2, 1⟩ = true := by
  refine ⟨by decide, by decide, ?_⟩
  exact (triggers_today_catchup_iff_and_monotone
    ⟨none, "", "", "@x", some ⟨2026, 1, 14⟩, none⟩ ⟨2026, 1, 14⟩).2
    ⟨2026, 2, 1⟩ (by decide) (by decide)

instance : DecidableRel dle := fun a b => inferInstanceAs (Decidable (dle a b))

instance : IsTotal PDate dle := ⟨dle_total⟩

instance : IsTrans PDate dle := ⟨fun _ _ _ => dle_trans⟩

/--
`deadlines_ahead_list` from `app.py`: the deadlines among the two deadline
columns that are still ahead (`>=` the reference date), as Python
`sorted(set(dls))` — deduplicated and sorted ascending.
-/
def deadlines_ahead_list (r : Row) (ref : PDate) : List PDate :=
  let dls := ([r.d1, r.d2].filterMap id).filter (fun d => decide (dle ref d))
  List.insertionSort dle dls.dedup

/-- C3: `deadlines_ahead_list` returns exactly the present values among `d1`
and `d2` that are on or after the reference date, with no duplicates, sorted
ascending, and never containing a date strictly before the reference date. -/
theorem deadlines_ahead_list_spec (r : Row) (ref : PDate) :
    (∀ d : PDate, d ∈ deadlines_ahead_list r ref ↔
      ((r.d1 = some d ∨ r.d2 = some d) ∧ dle ref d)) ∧
    (deadlines_ahead_list r ref).Nodup ∧
    List.Sorted dle (deadlines_ahead_list r ref) ∧
    (∀ d ∈ deadlines_ahead_list r ref, ¬ dlt d ref) := by
  have hmem : ∀ d : PDate, d ∈ deadlines_ahead_list r ref ↔
      ((r.d1 = some d ∨ r.d2 = some d) ∧ dle ref d) := by
    intro d
    simp [deadlines_ahead_list, List.mem_insertionSort, List.mem_dedup,
      List.mem_filter, List.mem_filterMap, eq_comm]
  refine ⟨hmem, ?_, ?_, ?_⟩
  · exact (List.perm_insertionSort dle _).nodup_iff.mpr (List.nodup_dedup _)
  · exact List.sorted_insertionSort dle _
  · intro d hd hlt
    exact absurd ((hmem d).mp hd).2 (not_dle_iff_dlt.mpr hlt)

theorem deadlines_ahead_list_witness :
    ¬ dlt ⟨2026, 1, 20⟩ ⟨2026, 1, 14⟩ :=
  (deadlines_ahead_list_spec
    ⟨none, "", "", "", some ⟨2026, 1, 20⟩, some ⟨2026, 1, 20⟩⟩
    ⟨2026, 1, 14⟩).2.2.2 ⟨2026, 1, 20⟩ (by decide)

/-- The ASCII whitespace characters Python `str.strip()` removes. -/
def pySpace (c : Char) : Bool :=
  c = ' ' || c = '\t' || c = '\n' || c = '\x0d' || c = '\x0b' || c = '\x0c'

/-- Python `str.strip()`: drop leading and trailing whitespace. -/
def pyStrip (cs : List Char) : List Char :=
  ((cs.dropWhile pySpace).reverse.dropWhile pySpace).reverse

/-- Split a character list on a separator character, Python `str.split(sep)`
style (an empty input yields one empty component). -/
def splitOnCharAux (sep : Char) : List Char → List Char → List (List Char)
  | [], acc => [acc.reverse]
  | c :: rest, acc =>
      if c = sep then acc.reverse :: splitOnCharAux sep rest []
      else splitOnCharAux sep rest (c :: acc)

def splitOnChar (sep : Char) (cs : List Char) : List (List Char) :=
  splitOnCharAux sep cs []

/-- Value of a nonempty all-decimal-digit character list, else `none`. -/
def digitsVal (cs : List Char) : Option Nat :=
  if cs ≠ [] ∧ cs.all Char.isDigit = true then
    some (cs.foldl (fun a c => 10 * a + (c.toNat - 48)) 0)
  else none

/-- `strptime` field `%d`: one or two digits, value 1..31. -/
def dayField (cs : List Char) : Option Nat :=
  match digitsVal cs with
  | some v =>
      if (cs.length = 1 ∨ cs.length = 2) ∧ 1 ≤ v ∧ v ≤ 31 then some v else none
  | none => none

/-- `strptime` field `%m`: one or two digits, value 1..12. -/
def monthField (cs : List Char) : Option Nat :=
  match digitsVal cs with
  | some v =>
      if (cs.length = 1 ∨ cs.length = 2) ∧ 1 ≤ v ∧ v ≤ 12 then some v else none
  | none => none

/-- `strptime` field `%Y`: exactly four digits. -/
def yearField (cs : List Char) : Option Nat :=
  match digitsVal cs with
  | some v => if cs.length = 4 then some v else none
  | none => none

def isLeap (y : Nat) : Bool :=
  y % 4 = 0 && (y % 100 ≠ 0 || y % 400 = 0)

def daysInMonth (y m : Nat) : Nat :=
  if m = 2 then (if isLeap y then 29 else 28)
  else if m = 4 ∨ m = 6 ∨ m = 9 ∨ m = 11 then 30
  else 31

/-- A date accepted by the `datetime.date` constructor. -/
def ValidDate (d : PDate) : Prop :=
  1 ≤ d.year ∧ d.year ≤ 9999 ∧ 1 ≤ d.month ∧ d.month ≤ 12 ∧
    1 ≤ d.day ∧ d.day ≤ daysInMonth d.year d.month

instance (d : PDate) : Decidable (ValidDate d) := by
  unfold ValidDate; exact inferInstance

/-- The `datetime.date(y, m, d)` constructor: a date, or `none` where Python
raises `ValueError` (which `parse_date_mixed` turns into a failed format). -/
def mkDate (y m d : Nat) : Option PDate :=
  if ValidDate ⟨y, m, d⟩ then some ⟨y, m, d⟩ else none

/-- `strptime(s, "%d" sep "%m" sep "%Y").date()` as an option. -/
def strpDMY (sep : Char) (cs : List Char) : Option PDate :=
  match splitOnChar sep cs with
  | [ds, ms, ys] =>
      (dayField ds).bind fun d =>
        (monthField ms).bind fun m =>
          (yearField ys).bind fun y => mkDate y m d
  | _ => none

/-- `strptime(s, "%Y-%m-%d").date()` as an option. -/
def strpYMD (cs : List Char) : Option PDate :=
  match splitOnChar '-' cs with
  | [ys, ms, ds] =>
      (yearField ys).bind fun y =>
        (monthField ms).bind fun m =>
          (dayField ds).bind fun d => mkDate y m d
  | _ => none

/--
`parse_date_mixed` from `app.py`: empty input is absent, the input is
stripped, then the formats `%d/%m/%Y`, `%d.%m.%Y`, `%Y-%m-%d` are tried in
that order, first success wins, and a string matching no format is absent.
-/
def parse_date_mixed (s : String) : Option PDate :=
  if s = "" then none
  else
    let t := pyStrip s.data
    if t = [] then none
    else
      match strpDMY '/' t with
      | some d => some d
      | none =>
          match strpDMY '.' t with
          | some d => some d
          | none => strpYMD t

theorem mkDate_valid {y m d : Nat} {dt : PDate} (h : mkDate y m d = some dt) :
    ValidDate dt := by
  unfold mkDate at h
  split at h
  · cases h; assumption
  · exact absurd h (by simp)

theorem strpDMY_valid {sep : Char} {cs : List Char} {dt : PDate}
    (h : strpDMY sep cs = some dt) : ValidDate dt := by
  unfold strpDMY at h
  split at h
  · simp only [Option.bind_eq_some] at h
    obtain ⟨d, _, m, _, y, _, hmk⟩ := h
    exact mkDate_valid hmk
  · exact absurd h (by simp)

theorem strpYMD_valid {cs : List Char} {dt : PDate}
    (h : strpYMD cs = some dt) : ValidDate dt := by
  unfold strpYMD at h
  split at h
  · simp only [Option.bind_eq_some] at h
    obtain ⟨y, _, m, _, d, _, hmk⟩ := h
    exact mkDate_valid hmk
  · exact absurd h (by simp)

/-- C4: the date parser is total (it returns an option, never raising),
parses the three documented forms — `"14/01/2026"` and `"2026-01-14"` to the
same date — maps empty, whitespace-only and unmatched strings to absence,
tries the three formats in fixed order with first match winning, and every
parsed result is a valid calendar date. -/
theorem parse_date_mixed_spec :
    parse_date_mixed "14/01/2026" = some ⟨2026, 1, 14⟩ ∧
    parse_date_mixed "07.01.2026" = some ⟨2026, 1, 7⟩ ∧
    parse_date_mixed "2026-01-14" = some ⟨2026, 1, 14⟩ ∧
    parse_date_mixed "" = none ∧
    parse_date_mixed "garbage" = none ∧
    (∀ s : String, (∀ c ∈ s.data, pySpace c = true) → parse_date_mixed s = none) ∧
    (∀ (s : String) (d : PDate), strpDMY '/' (pyStrip s.data) = some d →
      parse_date_mixed s = some d) ∧
    (∀ (s : String) (d : PDate), strpDMY '/' (pyStrip s.data) = none →
      strpDMY '.' (pyStrip s.data) = some d → parse_date_mixed s = some d) ∧
    (∀ (s : String) (d : PDate), strpDMY '/' (pyStrip s.data) = none →
      strpDMY '.' (pyStrip s.data) = none → strpYMD (pyStrip s.data) = some d →
      parse_date_mixed s = some d) ∧
    (∀ s : String, strpDMY '/' (pyStrip s.data) = none →
      strpDMY '.' (pyStrip s.data) = none → strpYMD (pyStrip s.data) = none →
      parse_date_mixed s = none) ∧
    (∀ (s : String) (d : PDate), parse_date_mixed s = some d → ValidDate d) := by
  refine ⟨by decide, by decide, by decide, by decide, by decide, ?_, ?_, ?_, ?_, ?_, ?_⟩
  · intro s hws
    by_cases hs : s = ""
    · simp [parse_date_mixed, hs]
    · have ht : pyStrip s.data = [] := by
        have : s.data.dropWhile pySpace = [] := by
          rw [List.dropWhile_eq_nil_iff]
          exact hws
        simp [pyStrip, this]
      simp [parse_date_mixed, hs, ht]
  · intro s d h
    by_cases hs : s = ""
    · subst hs
      have hnone : strpDMY '/' (pyStrip ("" : String).data) = none := by decide
      rw [hnone] at h
      exact absurd h (by simp)
    · by_cases htn : pyStrip s.data = []
      · rw [htn] at h
        have hnone : strpDMY '/' ([] : List Char) = none := by decide
        rw [hnone] at h
        exact absurd h (by simp)
      · simp [parse_date_mixed, hs, htn, h]
  · intro s d h1 h2
    by_cases hs : s = ""
    · subst hs
      have hnone : strpDMY '.' (pyStrip ("" : String).data) = none := by decide
      rw [hnone] at h2
      exact absurd h2 (by simp)
    · by_cases htn : pyStrip s.data = []
      · rw [htn] at h2
        have hnone : strpDMY '.' ([] : List Char) = none := by decide
        rw [hnone] at h2
        exact absurd h2 (by simp)
      · simp [parse_date_mixed, hs, htn, h1, h2]
  · intro s d h1 h2 h3
    by_cases hs : s = ""
    · subst hs
      have hnone : strpYMD (pyStrip ("" : String).data) = none := by decide
      rw [hnone] at h3
      exact absurd h3 (by simp)
    · by_cases htn : pyStrip s.data = []
      · rw [htn] at h3
        have hnone : strpYMD ([] : List Char) = none := by decide
        rw [hnone] at h3
        exact absurd h3 (by simp)
      · simp [parse_date_mixed, hs, htn, h1, h2, h3]
  · intro s h1 h2 h3
    by_cases hs : s = ""
    · simp [parse_date_mixed, hs]
    · by_cases htn : pyStrip s.data = []
      · simp [parse_date_mixed, hs, htn]
      · simp [parse_date_mixed, hs, htn, h1, h2, h3]
  · intro s d h
    by_cases hs : s = ""
    · simp [parse_date_mixed, hs] at h
    · by_cases htn : pyStrip s.data = []
      · simp [parse_date_mixed, hs, htn] at h
      · rcases hsl : strpDMY '/' (pyStrip s.data) with _ | d1
        · rcases hdot : strpDMY '.' (pyStrip s.data) with _ | d2
          · simp [parse_date_mixed, hs, htn, hsl, hdot] at h
            exact strpYMD_valid h
          · simp [parse_date_mixed, hs, htn, hsl, hdot] at h
            subst h
            exact strpDMY_valid hdot
        · simp [parse_date_mixed, hs, htn, hsl] at h
          subst h
          exact strpDMY_valid hsl

theorem parse_date_mixed_spec_witness :
    parse_date_mixed "   " = none ∧
    parse_date_mixed " 14/01/2026 " = some ⟨2026, 1, 14⟩ := by
  constructor
  · exact parse_date_mixed_spec.2.2.2.2.2.1 "   " (by decide)
  · exact parse_date_mixed_spec.2.2.2.2.2.2.1 " 14/01/2026 " ⟨2026, 1, 14⟩ (by decide)

/-- Python `sep.join(parts)`. -/
def joinSep (sep : String) : List String → String
  | [] => ""
  | [x] => x
  | x :: xs => x ++ sep ++ joinSep sep xs

/-- Two-digit zero padding, as `strftime` `%d` / `%m`. -/
def pad2 (n : Nat) : String :=
  if n < 10 then "0" ++ toString n else toString n

/-- `strftime("%d.%m.%Y")` on a date. -/
def fmtDMY (d : PDate) : String :=
  pad2 d.day ++ "." ++ pad2 d.month ++ "." ++ toString d.year

/-- The lines `build_reminder_message` appends after the tag: post date,
topic and block when non-empty, and the ahead-deadline list when non-empty. -/
def reminderBody (r : Row) (ref : PDate) : List String :=
  (match r.post_date with
   | some d => ["📅 Пост: " ++ fmtDMY d]
   | none => []) ++
  (if r.topic = "" then [] else ["🧩 Тема: " ++ r.topic]) ++
  (if r.block = "" then [] else ["🧱 Блок: " ++ r.block]) ++
  (match deadlines_ahead_list r ref with
   | [] => []
   | dls => ["⏳ Дедлайны: " ++ joinSep ", " (dls.map fmtDMY)])

/--
`build_reminder_message` from `app.py`: the parts list starts with the tag,
gets the body lines appended, and if only the tag is present the function
returns `None`; otherwise the parts joined by newlines.
-/
def build_reminder_message (tag : String) (r : Row) (ref : PDate) : Option String :=
  if (tag :: reminderBody r ref).length ≤ 1 then none
  else some (joinSep "\n" (tag :: reminderBody r ref))

theorem reminderBody_eq_nil_iff (r : Row) (ref : PDate) :
    reminderBody r ref = [] ↔
      (r.post_date = none ∧ r.topic = "" ∧ r.block = "" ∧
        deadlines_ahead_list r ref = []) := by
  rcases hpd : r.post_date with _ | d <;>
    rcases hdl : deadlines_ahead_list r ref with _ | ⟨dh, dt⟩ <;>
    by_cases ht : r.topic = "" <;> by_cases hb : r.block = "" <;>
    simp [reminderBody, hpd, hdl, ht, hb]

/-- C5: `build_reminder_message` returns no message exactly when the record
has no post date, an empty topic, an empty block and no ahead deadlines (so
a bare tag is never sent); any returned message starts with the tag line. -/
theorem build_reminder_message_spec (tag : String) (r : Row) (ref : PDate) :
    (build_reminder_message tag r ref = none ↔
      (r.post_date = none ∧ r.topic = "" ∧ r.block = "" ∧
        deadlines_ahead_list r ref = [])) ∧
    (∀ m : String, build_reminder_message tag r ref = some m →
      ∃ rest : String, m = tag ++ "\n" ++ rest) := by
  constructor
  · have h1 : build_reminder_message tag r ref = none ↔ reminderBody r ref = [] := by
      unfold build_reminder_message
      rcases hb : reminderBody r ref with _ | ⟨x, xs⟩ <;> simp
    exact h1.trans (reminderBody_eq_nil_iff r ref)
  · intro m hm
    rcases hb : reminderBody r ref with _ | ⟨x, xs⟩
    · simp [build_reminder_message, hb] at hm
    · have hlen : ¬ ((tag :: reminderBody r ref).length ≤ 1) := by simp [hb]
      unfold build_reminder_message at hm
      rw [if_neg hlen] at hm
      injection hm with hm
      exact ⟨joinSep "\n" (x :: xs), by rw [← hm, hb]; rfl⟩

theorem build_reminder_message_spec_witness :
    ∃ rest : String, "@x\n🧩 Тема: T" = "@x" ++ "\n" ++ rest :=
  (build_reminder_message_spec "@x" ⟨none, "T", "", "@x", none, none⟩
    ⟨2026, 1, 14⟩).2 "@x\n🧩 Тема: T" (by decide)

/-- A configured time of day (`datetime.time` as used by `REMINDER_TIME`). -/
structure TOD where
  hour : Nat
  minute : Nat
deriving DecidableEq, Repr

/-- A local wall-clock instant as `datetime.datetime` carries it. -/
structure LocalDT where
  day : PDate
  hour : Nat
  minute : Nat
  second : Nat
  usec : Nat
deriving DecidableEq, Repr

/-- Python `datetime` strict comparison: lexicographic on date then time. -/
def dtlt (a b : LocalDT) : Prop :=
  dlt a.day b.day ∨ (a.day = b.day ∧
    (a.hour < b.hour ∨ (a.hour = b.hour ∧
      (a.minute < b.minute ∨ (a.minute = b.minute ∧
        (a.second < b.second ∨ (a.second = b.second ∧ a.usec < b.usec)))))))

/-- Python `datetime` comparison `a <= b`. -/
def dtle (a b : LocalDT) : Prop := dtlt a b ∨ a = b

instance (a b : LocalDT) : Decidable (dtlt a b) := by
  unfold dtlt; exact inferInstance

instance (a b : LocalDT) : Decidable (dtle a b) := by
  unfold dtle; exact inferInstance

theorem not_dtle_iff {a b : LocalDT} : ¬ dtle a b ↔ dtlt b a := by
  obtain ⟨⟨ay, am, ad⟩, ah, ami, as_, au⟩ := a
  obtain ⟨⟨cy, cm, cd⟩, ch, cmi, cs, cu⟩ := b
  simp only [dtle, dtlt, dlt, LocalDT.mk.injEq, PDate.mk.injEq]
  omega

/-- The calendar day after `d` (`date + timedelta(days=1)`). -/
def nextDay (d : PDate) : PDate :=
  if d.day < daysInMonth d.year d.month then ⟨d.year, d.month, d.day + 1⟩
  else if d.month < 12 then ⟨d.year, d.month + 1, 1⟩
  else ⟨d.year + 1, 1, 1⟩

/-- `datetime + timedelta(days=1)`: same time of day, next calendar day. -/
def plusOneDay (dt : LocalDT) : LocalDT :=
  ⟨nextDay dt.day, dt.hour, dt.minute, dt.second, dt.usec⟩

/--
`next_run_at` from `app.py`: `now` with hour and minute replaced by the
target time and seconds and microseconds zeroed; a day is added when that
target is not strictly in the future.
-/
def next_run_at (t : TOD) (now : LocalDT) : LocalDT :=
  let target : LocalDT := ⟨now.day, t.hour, t.minute, 0, 0⟩
  if dtle target now then plusOneDay target else target

/-- C6: when `now` is strictly before today's target instant the next run is
today at the target time; when `now` is at or after it, the next run is
tomorrow at the target time. -/
theorem next_run_at_spec (t : TOD) (now : LocalDT) :
    (dtlt now ⟨now.day, t.hour, t.minute, 0, 0⟩ →
      next_run_at t now = ⟨now.day, t.hour, t.minute, 0, 0⟩) ∧
    (dtle ⟨now.day, t.hour, t.minute, 0, 0⟩ now →
      next_run_at t now = ⟨nextDay now.day, t.hour, t.minute, 0, 0⟩) := by
  constructor
  · intro h
    have hn : ¬ dtle ⟨now.day, t.hour, t.minute, 0, 0⟩ now := not_dtle_iff.mpr h
    simp [next_run_at, hn]
  · intro h
    simp [next_run_at, plusOneDay, h]

theorem next_run_at_witness :
    next_run_at ⟨15, 0⟩ ⟨⟨2026, 1, 14⟩, 12, 30, 0, 0⟩ = ⟨⟨2026, 1, 14⟩, 15, 0, 0, 0⟩ ∧
    next_run_at ⟨15, 0⟩ ⟨⟨2026, 1, 31⟩, 16, 0, 0, 0⟩ = ⟨⟨2026, 2, 1⟩, 15, 0, 0, 0⟩ := by
  constructor
  · exact (next_run_at_spec ⟨15, 0⟩ ⟨⟨2026, 1, 14⟩, 12, 30, 0, 0⟩).1 (by decide)
  · have := (next_run_at_spec ⟨15, 0⟩ ⟨⟨2026, 1, 31⟩, 16, 0, 0, 0⟩).2 (by decide)
    rw [this]
    decide

/-- The durable `groups.json` storage as `load_groups` can find it: the file
may be missing, unreadable or unparseable (any exception in the read or the
parse), or hold a list of integer chat ids. -/
inductive FileState where
  | missing
  | corrupt
  | valid (l : List Int)
deriving DecidableEq, Repr

/-- `load_groups` from `app.py`: a missing file or any read/parse error
yields the empty set; otherwise the set of the stored ids. -/
def load_groups : FileState → Finset Int
  | .missing => ∅
  | .corrupt => ∅
  | .valid l => l.toFinset

/-- `save_groups` from `app.py`: writes the ids as a sorted list. -/
def save_groups (groups : Finset Int) : FileState :=
  .valid (groups.sort (· ≤ ·))

/-- The registry's state: the in-memory `GROUP_CHAT_IDS` set and the file. -/
structure RegState where
  mem : Finset Int
  file : FileState
deriving DecidableEq

/-- `register_group` from `app.py`: insert the id and persist, but only when
it is not already present. -/
def register_group (chat_id : Int) (s : RegState) : RegState :=
  if chat_id ∈ s.mem then s
  else { mem := insert chat_id s.mem, file := save_groups (insert chat_id s.mem) }

/-- The removal branch of `on_my_chat_member` in `app.py` (statuses `left` /
`kicked`): discard the id and persist, but only when it is present. -/
def unregister_group (chat_id : Int) (s : RegState) : RegState :=
  if chat_id ∈ s.mem then
    { mem := s.mem.erase chat_id, file := save_groups (s.mem.erase chat_id) }
  else s

/-- The registry states the program can be in: at startup `main` sets the
in-memory set to `load_groups()`, and afterwards only `register_group` and
the `on_my_chat_member` removal branch mutate it. -/
inductive Reachable : RegState → Prop where
  | startup (fs : FileState) : Reachable ⟨load_groups fs, fs⟩
  | register (chat_id : Int) {s : RegState} :
      Reachable s → Reachable (register_group chat_id s)
  | unregister (chat_id : Int) {s : RegState} :
      Reachable s → Reachable (unregister_group chat_id s)

theorem load_save (g : Finset Int) : load_groups (save_groups g) = g := by
  simp [load_groups, save_groups, Finset.sort_toFinset]

/-- In every reachable registry state the persisted file decodes to exactly
the in-memory set. -/
theorem reachable_file_consistent {s : RegState} (h : Reachable s) :
    load_groups s.file = s.mem := by
  induction h with
  | startup fs => rfl
  | @register chat_id s hr ih =>
      by_cases hc : chat_id ∈ s.mem
      all_goals simp [register_group, hc, load_save, ih]
  | @unregister chat_id s hr ih =>
      by_cases hc : chat_id ∈ s.mem
      all_goals simp [unregister_group, hc, load_save, ih]

/-- C7: in every reachable registry state, registering an id and reloading
from storage finds it, unregistering and reloading does not, registering an
already-present id changes nothing (no re-persist), and every non-no-op
mutation leaves the new set persisted in the file it returns with. -/
theorem registry_round_trip (chat_id : Int) (s : RegState) (h : Reachable s) :
    chat_id ∈ load_groups (register_group chat_id s).file ∧
    chat_id ∉ load_groups (unregister_group chat_id s).file ∧
    (chat_id ∈ s.mem → register_group chat_id s = s) ∧
    (chat_id ∉ s.mem →
      (register_group chat_id s).file = save_groups (insert chat_id s.mem)) ∧
    (chat_id ∈ s.mem →
      (unregister_group chat_id s).file = save_groups (s.mem.erase chat_id)) := by
  have hcons := reachable_file_consistent h
  refine ⟨?_, ?_, ?_, ?_, ?_⟩
  · by_cases hc : chat_id ∈ s.mem
    · simp [register_group, hc, hcons]
    · simp [register_group, hc, load_save]
  · by_cases hc : chat_id ∈ s.mem
    · simp [unregister_group, hc, load_save]
    · simp [unregister_group, hc, hcons]
  · intro hc
    simp [register_group, hc]
  · intro hc
    simp [register_group, hc]
  · intro hc
    simp [unregister_group, hc]

theorem registry_round_trip_witness :
    (5 : Int) ∈ load_groups (register_group 5 ⟨∅, FileState.missing⟩).file ∧
    (5 : Int) ∉ load_groups (unregister_group 5 ⟨∅, FileState.missing⟩).file :=
  ⟨(registry_round_trip 5 ⟨∅, FileState.missing⟩ (Reachable.startup FileState.missing)).1,
   (registry_round_trip 5 ⟨∅, FileState.missing⟩ (Reachable.startup FileState.missing)).2.1⟩

/-- C8: `load_groups` is total over every storage state — a missing file and
arbitrarily corrupt contents both yield the empty set rather than an error,
and valid contents yield the stored set. -/
theorem load_groups_total_spec :
    load_groups FileState.missing = ∅ ∧
    load_groups FileState.corrupt = ∅ ∧
    (∀ l : List Int, load_groups (FileState.valid l) = l.toFinset) :=
  ⟨rfl, rfl, fun _ => rfl⟩

/-- One delivery attempt of `scheduled_check`: the `try`/`except` around
`send_message` turns a transport error into a logged failure record instead
of an exception, so the loops continue. -/
def attemptSend (send : Int → String → Except String Unit) (g : Int) (m : String) :
    Int × String × Bool :=
  match send g m with
  | .ok _ => (g, m, true)
  | .error _ => (g, m, false)

/-- The broadcast loops of `scheduled_check`: for every registered group,
for every reminder text, one delivery attempt; the returned list is the
sequence of attempts in order. -/
def broadcast (send : Int → String → Except String Unit) :
    List Int → List String → List (Int × String × Bool)
  | [], _ => []
  | g :: gs, msgs => msgs.map (attemptSend send g) ++ broadcast send gs msgs

/-- The (destination, message) pairs of an attempt log, outcomes forgotten. -/
def attemptedPairs (log : List (Int × String × Bool)) : List (Int × String) :=
  log.map (fun t => (t.1, t.2.1))

/-- The full cross-product of destinations and messages, in loop order. -/
def crossProd : List Int → List String → List (Int × String)
  | [], _ => []
  | g :: gs, msgs => msgs.map (fun m => (g, m)) ++ crossProd gs msgs

theorem map_proj_attempt (send : Int → String → Except String Unit) (g : Int) :
    ∀ msgs : List String,
      (msgs.map (attemptSend send g)).map (fun t => (t.1, t.2.1)) =
        msgs.map (fun m => (g, m))
  | [] => rfl
  | m :: ms => by
      simp only [List.map_cons]
      rw [map_proj_attempt send g ms]
      congr 1
      unfold attemptSend
      cases send g m <;> rfl

theorem attemptedPairs_broadcast (send : Int → String → Except String Unit)
    (gs : List Int) (msgs : List String) :
    attemptedPairs (broadcast send gs msgs) = crossProd gs msgs := by
  unfold attemptedPairs
  induction gs with
  | nil => rfl
  | cons g gs ih =>
      simp only [broadcast, crossProd, List.map_append]
      rw [map_proj_attempt, ih]

theorem count_map_pair (g : Int) (m : String) (msgs : List String) :
    (msgs.map (fun m2 => (g, m2))).count (g, m) = msgs.count m := by
  induction msgs with
  | nil => rfl
  | cons m0 ms ih => simp [List.count_cons, ih, Prod.ext_iff]

theorem count_map_pair_ne {g g0 : Int} (hne : g0 ≠ g) (m : String) (msgs : List String) :
    (msgs.map (fun m2 => (g0, m2))).count (g, m) = 0 := by
  rw [List.count_eq_zero]
  intro hmem
  rw [List.mem_map] at hmem
  obtain ⟨m2, _, heq⟩ := hmem
  exact hne (congrArg Prod.fst heq)

theorem count_crossProd_not_mem {g : Int} {m : String} {msgs : List String} :
    ∀ {gs : List Int}, g ∉ gs → (crossProd gs msgs).count (g, m) = 0
  | [], _ => rfl
  | g0 :: gs, h => by
      rw [crossProd, List.count_append]
      have hne : g0 ≠ g := fun he => h (he ▸ List.mem_cons_self g0 gs)
      rw [count_map_pair_ne hne, count_crossProd_not_mem (fun hm => h (List.mem_cons_of_mem g0 hm))]

/-- C9: the broadcast attempts of `scheduled_check` do not depend on which
deliveries fail — a failed pair never suppresses another attempt — the
number of attempts is exactly destinations times messages, and with distinct
destinations and messages every cross-product pair is attempted exactly
once, with no retry. -/
theorem broadcast_fault_isolation :
    (∀ (send1 send2 : Int → String → Except String Unit)
       (gs : List Int) (msgs : List String),
      attemptedPairs (broadcast send1 gs msgs) =
        attemptedPairs (broadcast send2 gs msgs)) ∧
    (∀ (send : Int → String → Except String Unit) (gs : List Int) (msgs : List String),
      (broadcast send gs msgs).length = gs.length * msgs.length) ∧
    (∀ (send : Int → String → Except String Unit) (gs : List Int) (msgs : List String),
      gs.Nodup → msgs.Nodup → ∀ g ∈ gs, ∀ m ∈ msgs,
        (attemptedPairs (broadcast send gs msgs)).count (g, m) = 1) := by
  refine ⟨?_, ?_, ?_⟩
  · intro send1 send2 gs msgs
    rw [attemptedPairs_broadcast, attemptedPairs_broadcast]
  · intro send gs msgs
    induction gs with
    | nil => simp [broadcast]
    | cons g gs ih =>
        simp only [broadcast, List.length_append, List.length_map, List.length_cons, ih]
        ring
  · intro send gs msgs hg hm g hgmem m hmmem
    rw [attemptedPairs_broadcast]
    induction gs with
    | nil => cases hgmem
    | cons g0 gs ih =>
        rw [crossProd, List.count_append]
        rcases List.mem_cons.mp hgmem with hgg | hgtail
        · subst hgg
          rw [count_map_pair, List.count_eq_one_of_mem hm hmmem,
            count_crossProd_not_mem (List.Nodup.not_mem hg)]
        · have hne : g0 ≠ g := fun he => (List.Nodup.not_mem hg) (he ▸ hgtail)
          rw [count_map_pair_ne hne, ih (List.Nodup.of_cons hg) hgtail]

theorem broadcast_fault_isolation_witness :
    (attemptedPairs (broadcast
      (fun g _ => if g = 2 then Except.error "boom" else Except.ok ())
      [1, 2, 3] ["hello"])).count (3, "hello") = 1 :=
  broadcast_fault_isolation.2.2
    (fun g _ => if g = 2 then Except.error "boom" else Except.ok ())
    [1, 2, 3] ["hello"] (by decide) (by decide) 3 (by decide) "hello" (by decide)

/-- Records a `filterMap` maps to `none` can be dropped beforehand by any
filter that only discards such records. -/
theorem filterMap_filter_of_none {α β : Type} (p : α → Bool) (f : α → Option β)
    (h : ∀ a, p a = false → f a = none) :
    ∀ l : List α, l.filterMap f = (l.filter p).filterMap f := by
  intro l
  induction l with
  | nil => rfl
  | cons a l ih =>
      rw [List.filter_cons]
      cases hp : p a with
      | false =>
          rw [if_neg (by simp), List.filterMap_cons, h a hp]
          exact ih
      | true =>
          rw [if_pos rfl, List.filterMap_cons, List.filterMap_cons, ih]

/--
The reminder-building loop of `scheduled_check`: rows with an empty tag are
skipped, then rows that do not fire today, then `build_reminder_message` is
called and only truthy (non-`None`, non-empty) messages are kept.
-/
def scheduled_reminders (catchUp : Bool) (rows : List Row) (ref : PDate) : List String :=
  rows.filterMap (fun r =>
    if r.who_tag = "" then none
    else if triggers_today catchUp r ref then
      match build_reminder_message r.who_tag r ref with
      | some msg => if msg = "" then none else some msg
      | none => none
    else none)

/-- C10: a record whose assignee tag is the empty string is skipped before
the firing predicate runs — the scheduled cycle builds the same reminder
list as if such records were absent, and a lone empty-tag record yields no
reminder even when it fires. -/
theorem scheduled_reminders_skip_empty_tag (catchUp : Bool) (rows : List Row) (ref : PDate) :
    scheduled_reminders catchUp rows ref =
      scheduled_reminders catchUp (rows.filter (fun r => !(r.who_tag == ""))) ref ∧
    (∀ r : Row, r.who_tag = "" →
      scheduled_reminders catchUp [r] ref = []) := by
  constructor
  · have hdrop : ∀ r2 : Row, (!(r2.who_tag == "")) = false →
        (if r2.who_tag = "" then none
         else if triggers_today catchUp r2 ref then
           match build_reminder_message r2.who_tag r2 ref with
           | some msg => if msg = "" then none else some msg
           | none => none
         else none) = (none : Option String) := by
      intro r2 hp
      simp at hp
      simp [hp]
    exact filterMap_filter_of_none (fun r2 => !(r2.who_tag == "")) _ hdrop rows
  · intro r ht
    simp [scheduled_reminders, ht]

theorem scheduled_reminders_skip_empty_tag_witness :
    scheduled_reminders false
      [⟨none, "T", "", "", some ⟨2026, 1, 14⟩, none⟩] ⟨2026, 1, 14⟩ = [] :=
  (scheduled_reminders_skip_empty_tag false
    [⟨none, "T", "", "", some ⟨2026, 1, 14⟩, none⟩] ⟨2026, 1, 14⟩).2
    ⟨none, "T", "", "", some ⟨2026, 1, 14⟩, none⟩ rfl
